import Mathlib

/-!
# Verification of the live voice session manager (ChatWidget)

A shallow embedding, in Lean 4, of the real-time voice session manager of
the QR-Code-Stickers chat widget (`src/Components/ChatWidget.tsx`), together
with proofs of the testable properties stated in its specification.

Conventions of the embedding:
* Times are modelled as integers (milliseconds, `Date.now()`) on the capture
  side and as rationals (seconds, `AudioContext.currentTime`) on the output
  side; audio samples are rationals on the JavaScript [-1, 1] scale.
* Event handlers are modelled run-to-completion, in delivery order, matching
  the cooperative single-threaded event-loop model of the source; the
  `await decodeAudioData` inside `onmessage` is folded into the handler.
* The component's mutable refs (`lastSpeechTimeRef`, `nextStartTimeRef`,
  `idleTimerRef`, ...) become fields of an explicit `WidgetState` record
  threaded through the handler functions.
* A pending `setTimeout` / `setInterval` is modelled by the absolute fire
  deadline (resp. the period) it was registered with; the runtime guarantee
  that a timer never fires before its deadline appears as a guard on the
  fire transition or as a hypothesis of the theorems.
-/

namespace QRChat

/-- Constant `SILENCE_THRESHOLD = 0.01` from the source: minimum RMS volume counted
as speech. -/
def SILENCE_THRESHOLD : ℚ := 1/100

/-- Constant `SPEECH_HANGOVER_MS = 800` from the source: keep sending audio this long
after the last detected speech. -/
def SPEECH_HANGOVER_MS : ℤ := 800

/-- Constant `IDLE_TIMEOUT_MS = 90000` from the source: disconnect after this much
user silence. -/
def IDLE_TIMEOUT_MS : ℤ := 90000

/-- The `4000` ms period of the keep-alive `setInterval` in
`startLiveSession`. -/
def KEEPALIVE_INTERVAL_MS : ℤ := 4000

/-- The `800` ms delay of the `setTimeout` in `onopen` that attaches the
microphone processor. -/
def MIC_ATTACH_DELAY_MS : ℤ := 800

/-! ## RMS computation (`calculateRMS`) -/

/-- The square of `calculateRMS` from the source: `calculateRMS` sums the
squares of the samples, divides by the length, and takes the square root;
we keep the pre-square-root value so the definition stays computable on ℚ
(division by zero on the empty frame yields `0/0 = 0` in ℚ, matching the
`NaN > 0.01 = false` comparison of the source on an empty buffer). -/
def calculateRMSsq (inputData : List ℚ) : ℚ :=
  ((inputData.map fun x => x * x).sum) / (inputData.length : ℚ)

/-- The speech test `rms > SILENCE_THRESHOLD` of `onaudioprocess`,
expressed on the squared RMS: since both sides are nonnegative,
`sqrt m > 0.01` is equivalent to `m > 0.01 ^ 2` (proved in
`speechDetected_iff_sqrt`). -/
def speechDetected (inputData : List ℚ) : Bool :=
  decide (calculateRMSsq inputData > SILENCE_THRESHOLD ^ 2)

/-! ## Transcript data (`ChatMessage`, grounding citations) -/

/-- The `role` union type of `ChatMessage` in `src/types.ts`. -/
inductive Role where
  | user
  | model
  | system
deriving DecidableEq, Repr

/-- Record `ChatMessage` from `src/types.ts`: one transcript entry; `sources` is
the optional list of `(title, uri)` grounding citations. -/
structure ChatMessage where
  id : String
  role : Role
  text : String
  timestamp : ℤ
  sources : Option (List (String × String)) := none
deriving DecidableEq, Repr

/-- One element of `message.serverContent.groundingMetadata.groundingChunks`:
the optional `web.uri` and `web.title` fields (absent component = `none`;
the source tests them with JavaScript truthiness, so the empty string
behaves like absence). -/
structure GroundingChunk where
  webUri : Option String := none
  webTitle : Option String := none
deriving DecidableEq, Repr

/-- The `newSources` accumulation loop of `onmessage`: keep the chunks whose
`web.uri` is truthy (present and non-empty), taking `web.title || 'Source'`
as the title. -/
def extractSources (chunks : List GroundingChunk) : List (String × String) :=
  chunks.filterMap fun c =>
    match c.webUri with
    | some uri =>
      if uri = "" then none
      else
        some (match c.webTitle with
              | some t => if t = "" then "Source" else t
              | none => "Source", uri)
    | none => none

/-- The grounding branch of `onmessage`: when the extracted source list is
non-empty, replace the last transcript entry by a copy carrying the new
`sources` exactly when that entry exists and has role `model`; in every
other case leave the transcript untouched. -/
def applyGrounding (chunks : List GroundingChunk) (prev : List ChatMessage) :
    List ChatMessage :=
  if chunks.isEmpty then prev
  else
    let newSources := extractSources chunks
    if newSources.isEmpty then prev
    else
      match prev.getLast? with
      | some lastMsg =>
        if lastMsg.role = Role.model then
          prev.dropLast ++ [{ lastMsg with sources := some newSources }]
        else prev
      | none => prev

/-! ## Widget state -/

/-- The `connectionStatus` React state of the widget. -/
inductive ConnectionStatus where
  | disconnected
  | connecting
  | connected
  | reconnecting
deriving DecidableEq, Repr

/-- The state of one `ChatWidget` instance: its React state plus the
mutable refs of the live session. Resource-holding refs are modelled by
whether they are non-null (`Bool`), except:
* `idleDeadline` records the absolute fire time of the pending idle
  `setTimeout` (`none` = no pending timer);
* `keepAliveInterval` records the period of the registered keep-alive
  `setInterval`;
* `sources` models `sourcesRef` — the set of in-flight playback nodes —
  as a list carrying, for each node, whether its `stop()` call would throw
  (an environment fact: `AudioBufferSourceNode.stop` throws on a node that
  was never started);
* `streamTracks` counts the capture tracks of the held media stream. -/
structure WidgetState where
  messages : List ChatMessage := []
  isLiveActive : Bool := false
  connectionStatus : ConnectionStatus := ConnectionStatus.disconnected
  errorMsg : Option String := none
  sessionPromise : Bool := false
  inputContext : Bool := false
  outputContext : Bool := false
  nextStartTime : ℚ := 0
  sources : List Bool := []
  stream : Bool := false
  streamTracks : ℕ := 0
  scriptProcessor : Bool := false
  keepAliveInterval : Option ℤ := none
  isUserDisconnecting : Bool := false
  lastSpeechTime : ℤ := 0
  idleDeadline : Option ℤ := none
deriving DecidableEq, Repr

/-- Function `resetIdleTimer` from the source: clear any pending idle timeout and
schedule a new one `IDLE_TIMEOUT_MS` in the future. -/
def resetIdleTimer (now : ℤ) (s : WidgetState) : WidgetState :=
  { s with idleDeadline := some (now + IDLE_TIMEOUT_MS) }

/-! ## Capture path (`processor.onaudioprocess`) -/

/-- One `processor.onaudioprocess` callback: compute the frame's RMS; when
it exceeds the threshold, set `lastSpeechTimeRef` to `now` and reset the
idle timer; forward the frame to the transport iff
`now - lastSpeechTimeRef.current < SPEECH_HANGOVER_MS`, evaluated against
the (possibly just updated) ref, as in the source. Returns the new state
and whether the frame was forwarded. -/
def onAudioProcess (s : WidgetState) (now : ℤ) (inputData : List ℚ) :
    WidgetState × Bool :=
  let s2 := if speechDetected inputData
            then resetIdleTimer now { s with lastSpeechTime := now }
            else s
  (s2, decide (now - s2.lastSpeechTime < SPEECH_HANGOVER_MS))

/-- A run of `onaudioprocess` over a sequence of captured frames
`(Date.now() at the callback, samples)`, recording for each frame
`(now, samples, lastSpeechTime after the step, forwarded?)`. -/
def vadTrace (s : WidgetState) :
    List (ℤ × List ℚ) → List (ℤ × List ℚ × ℤ × Bool)
  | [] => []
  | (now, frame) :: rest =>
    let p := onAudioProcess s now frame
    (now, frame, p.1.lastSpeechTime, p.2) :: vadTrace p.1 rest

/-! ## Playback scheduler (`onmessage`, audio branch) -/

/-- One audio delivery of `onmessage`: `nextStartTime` is first raised to
`max nextStartTime ctx.currentTime`; then, if the chunk decodes
(`decoded = some duration`), playback is scheduled to start at that raised
value and `nextStartTime` advances by the chunk's duration; if decoding
fails (`decoded = none`, the `catch` branch of the source), nothing is
scheduled. Returns the new `nextStartTime` and the scheduled start, if
any. -/
def scheduleChunk (nextStartTime now : ℚ) (decoded : Option ℚ) :
    ℚ × Option ℚ :=
  let t := max nextStartTime now
  match decoded with
  | some duration => (t + duration, some t)
  | none => (t, none)

/-- A run of the scheduler over a sequence of deliveries
`(ctx.currentTime at enqueue, decode result)`, recording for each delivery
`(now, decode result, scheduled start if any)`. -/
def scheduleTrace (nextStartTime : ℚ) :
    List (ℚ × Option ℚ) → List (ℚ × Option ℚ × Option ℚ)
  | [] => []
  | (now, decoded) :: rest =>
    let p := scheduleChunk nextStartTime now decoded
    (now, decoded, p.2) :: scheduleTrace p.1 rest

/-- The all-successful-decode run: list of `(scheduled start, duration)`
pairs for chunk sequences `(ctx.currentTime, duration)` in which every
chunk decodes. -/
def chunkStarts (nextStartTime : ℚ) (chunks : List (ℚ × ℚ)) :
    List (ℚ × ℚ) :=
  (scheduleTrace nextStartTime (chunks.map fun c => (c.1, some c.2))).filterMap
    fun e => e.2.2.map fun s => (s, (e.2.1).getD 0)

/-! ## `onmessage` -/

/-- One `LiveServerMessage` as far as the handler inspects it:
`audio = some decodeResult` when `serverContent.modelTurn` carries inline
audio data, where `decodeResult = some duration` if `decodeAudioData`
succeeds on it and `none` if it throws; plus the grounding chunks. -/
structure ServerMessage where
  audio : Option (Option ℚ) := none
  groundingChunks : List GroundingChunk := []
deriving DecidableEq, Repr

/-- The `onmessage` callback: when inline audio is present (and the output
context is held), reset the idle timer and run the scheduler step — on
decode success the new playback node joins the in-flight set (a started
node's `stop()` does not throw, hence `false`), on decode failure the
error is logged and nothing is tracked; then the grounding branch updates
the transcript. `nowMs` is `Date.now()`, `ctxNow` is
`outputContext.currentTime`. -/
def onMessage (s : WidgetState) (nowMs : ℤ) (ctxNow : ℚ)
    (msg : ServerMessage) : WidgetState :=
  let s2 :=
    match msg.audio with
    | some decoded =>
      if s.outputContext then
        let s3 := resetIdleTimer nowMs s
        let p := scheduleChunk s3.nextStartTime ctxNow decoded
        match p.2 with
        | some _ =>
          { s3 with nextStartTime := p.1, sources := s3.sources ++ [false] }
        | none => { s3 with nextStartTime := p.1 }
      else s
    | none => s
  { s2 with messages := applyGrounding msg.groundingChunks s2.messages }

/-! ## Teardown (`stopLiveSession`) -/

/-- Call `session.close()` as the environment may behave: it can throw (for
example on an already-closed session); the source wraps the call in
`try { } catch(e) { }`. -/
def sessionClose (throws : Bool) : Except Unit Unit :=
  if throws then Except.error () else Except.ok ()

/-- Call `source.stop()` on an in-flight playback node: it can throw (on a node
that never started); the source wraps each call in `try { } catch(e) { }`. -/
def sourceStop (throws : Bool) : Except Unit Unit :=
  if throws then Except.error () else Except.ok ()

/-- One observable release effect performed by the teardown path; the
teardown returns the list of effects it actually performed, so that
idempotence (no double release) is a statement about this log. -/
inductive CleanupAction where
  | clearKeepAlive
  | clearIdleTimer
  | transportClose
  | trackStop
  | processorDisconnect
  | playbackSourceStop
  | closeInputContext
  | closeOutputContext
deriving DecidableEq, Repr

/-- Function `stopLiveSession(userInitiated)` from the source, with `closeThrows`
an environment oracle for whether `session.close()` throws (the in-flight
nodes carry their own `stop()`-throws oracle). Every step is guarded by
the nullness of its ref exactly as in the source; the two calls the
platform can make throw — `session.close()` and each `source.stop()` —
are wrapped in `try`/`catch` in the source, which the `match` on their
`Except` result reflects: both branches continue identically. Returns the
new state and the log of release effects attempted. -/
def stopLiveSession (userInitiated closeThrows : Bool) (s0 : WidgetState) :
    WidgetState × List CleanupAction :=
  let s1 := if userInitiated
            then { s0 with isUserDisconnecting := true, errorMsg := none }
            else s0
  let s2 := { s1 with isLiveActive := false,
                      connectionStatus := ConnectionStatus.disconnected }
  let aKeep := if s2.keepAliveInterval.isSome
               then [CleanupAction.clearKeepAlive] else []
  let aIdle := if s2.idleDeadline.isSome
               then [CleanupAction.clearIdleTimer] else []
  let aClose := if s2.sessionPromise then
                  match sessionClose closeThrows with
                  | Except.ok _ => [CleanupAction.transportClose]
                  | Except.error _ => [CleanupAction.transportClose]
                else []
  let aTracks := if s2.stream
                 then List.replicate s2.streamTracks CleanupAction.trackStop
                 else []
  let aProc := if s2.scriptProcessor
               then [CleanupAction.processorDisconnect] else []
  let aSrc := s2.sources.map fun thr =>
                match sourceStop thr with
                | Except.ok _ => CleanupAction.playbackSourceStop
                | Except.error _ => CleanupAction.playbackSourceStop
  let aIn := if s2.inputContext then [CleanupAction.closeInputContext] else []
  let aOut := if s2.outputContext then [CleanupAction.closeOutputContext] else []
  ({ s2 with keepAliveInterval := none,
             idleDeadline := none,
             sessionPromise := false,
             stream := false,
             streamTracks := 0,
             scriptProcessor := false,
             sources := [],
             nextStartTime := 0,
             inputContext := false,
             outputContext := false },
   aKeep ++ aIdle ++ aClose ++ aTracks ++ aProc ++ aSrc ++ aIn ++ aOut)

/-! ## Session start (`startLiveSession`) -/

/-- Function `startLiveSession` from the source: a no-op when `isLiveActive` already
holds; an error message when the API key is missing; otherwise the
synchronous part of the `try` block — reset flags and timers, open both
audio contexts, register the keep-alive interval, then acquire the
microphone (`micGranted` is the environment oracle for
`getUserMedia`; on denial the `catch` block reports the failure and
returns the status to disconnected without starting a session). -/
def startLiveSession (hasApiKey micGranted : Bool) (now : ℤ) (tracks : ℕ)
    (s : WidgetState) : WidgetState :=
  if s.isLiveActive then s
  else if hasApiKey = false then
    { s with errorMsg := some "Missing API Key. Please configure process.env.API_KEY." }
  else
    let s2 := { s with errorMsg := none,
                       connectionStatus := ConnectionStatus.connecting,
                       isLiveActive := true,
                       isUserDisconnecting := false,
                       lastSpeechTime := now,
                       idleDeadline := some (now + IDLE_TIMEOUT_MS),
                       inputContext := true,
                       outputContext := true,
                       keepAliveInterval := some KEEPALIVE_INTERVAL_MS }
    if micGranted then
      { s2 with stream := true, streamTracks := tracks, sessionPromise := true }
    else
      { s2 with connectionStatus := ConnectionStatus.disconnected,
                isLiveActive := false,
                errorMsg := some "Connection failed: Microphone access denied. Please check browser permissions." }

/-! ## Idle timeout and transport closure handlers -/

/-- The body of the idle `setTimeout` callback registered by
`resetIdleTimer`: surface the inactivity message unless the user is
disconnecting, then tear the session down (not user-initiated). -/
def idleTimeoutFire (closeThrows : Bool) (s : WidgetState) :
    WidgetState × List CleanupAction :=
  let s2 := if s.isUserDisconnecting then s
            else { s with errorMsg := some "Session ended due to inactivity." }
  stopLiveSession false closeThrows s2

/-- The `onclose` transport callback: surface the timeout message unless
the closure was user-initiated, then tear the session down (not
user-initiated). -/
def onClose (closeThrows : Bool) (s : WidgetState) :
    WidgetState × List CleanupAction :=
  let s2 := if s.isUserDisconnecting then s
            else { s with errorMsg := some "Session timed out. Please resume." }
  stopLiveSession false closeThrows s2

/-! ## Keep-alive tick -/

/-- The oscillator-plus-gain graph built by one keep-alive tick:
oscillator frequency 440 Hz, gain node value, and the stop offset in
seconds after the context's current time. -/
structure KeepAliveTone where
  frequency : ℚ
  gainValue : ℚ
  stopOffset : ℚ
deriving DecidableEq, Repr

/-- One tick of the keep-alive `setInterval`: when the output context is
held and running, build an oscillator routed through a gain node of value
`0` into the destination, started immediately and stopped `0.01` s later;
otherwise do nothing. -/
def keepAliveTick (outputRunning : Bool) : Option KeepAliveTone :=
  if outputRunning
  then some { frequency := 440, gainValue := 0, stopOffset := 1/100 }
  else none

/-- A gain node scales every sample of its input by its gain value; this is
the signal the keep-alive tone contributes at the destination. -/
def gainNodeOutput (gainValue sample : ℚ) : ℚ := gainValue * sample

/-! ## `onopen`: greeting push and delayed microphone attach -/

/-- A message sent to the transport: either a synthetic text instruction
(`sendRealtimeInput` with `content`) or one forwarded microphone frame
(`sendRealtimeInput` with `media`). -/
inductive TransportMsg where
  | instruction (text : String)
  | audioFrame
deriving DecidableEq, Repr

/-- The exact greeting instruction string pushed by `onopen`. -/
def greetingInstruction : String :=
  "Speak with a strong British accent. Say exactly: \x27Hi, how can I help you?\x27"

/-- The fixed greeting the remote party is compelled to speak, as fixed by
rule 1 of the system instruction. -/
def fixedGreeting : String := "Hi, how can I help you?"

/-- State of the open/attach protocol: the ordered log of messages sent to
the transport, the pending mic-attach `setTimeout` deadline, whether the
microphone processor is attached, and the voice-activity ref. -/
structure OpenRunState where
  outbox : List (ℤ × TransportMsg) := []
  micAttachDue : Option ℤ := none
  micAttached : Bool := false
  lastSpeechTime : ℤ := 0
deriving DecidableEq, Repr

/-- Events of the open/attach protocol, each carrying its wall-clock time:
the transport's `opened` callback, the firing of the mic-attach
`setTimeout`, and one captured audio frame. -/
inductive OpenEvent where
  | opened (t : ℤ)
  | micTimerFire (t : ℤ)
  | frame (t : ℤ) (inputData : List ℚ)
deriving DecidableEq, Repr

/-- The wall-clock time an event occurs at. -/
def OpenEvent.time : OpenEvent → ℤ
  | OpenEvent.opened t => t
  | OpenEvent.micTimerFire t => t
  | OpenEvent.frame t _ => t

/-- One step of the open/attach protocol. `opened` pushes the greeting
instruction (the `sessionPromise.then` microtask) and registers the
mic-attach `setTimeout` at `t + MIC_ATTACH_DELAY_MS`. `micTimerFire`
attaches the processor — guarded by `due ≤ t`, the runtime guarantee that
a timeout never fires before its deadline. A captured `frame` is processed
only when the processor is attached, and then exactly as
`onaudioprocess`: update `lastSpeechTime` on speech and forward within the
hangover window. -/
def openStep (s : OpenRunState) : OpenEvent → OpenRunState
  | OpenEvent.opened t =>
    { s with outbox := s.outbox ++ [(t, TransportMsg.instruction greetingInstruction)],
             micAttachDue := some (t + MIC_ATTACH_DELAY_MS) }
  | OpenEvent.micTimerFire t =>
    match s.micAttachDue with
    | some due =>
      if due ≤ t then { s with micAttachDue := none, micAttached := true }
      else s
    | none => s
  | OpenEvent.frame t inputData =>
    if s.micAttached then
      let s2 := if speechDetected inputData
                then { s with lastSpeechTime := t }
                else s
      if t - s2.lastSpeechTime < SPEECH_HANGOVER_MS then
        { s2 with outbox := s2.outbox ++ [(t, TransportMsg.audioFrame)] }
      else s2
    else s

/-- A run of the open/attach protocol over a list of events. -/
def openRun (s : OpenRunState) : List OpenEvent → OpenRunState
  | [] => s
  | e :: rest => openRun (openStep s e) rest

/-! ## Idle-timer trace semantics -/

/-- Events relevant to the idle watchdog, each with its wall-clock time:
a call to `resetIdleTimer` and the runtime firing the pending
`setTimeout`. -/
inductive IdleEvent where
  | reset (t : ℤ)
  | fire (t : ℤ)
deriving DecidableEq, Repr

/-- A run of the idle watchdog: `reset t` replaces the pending deadline by
`t + IDLE_TIMEOUT_MS`; `fire t` runs the timeout callback exactly when a
timer is pending with deadline `t` (a cleared or replaced timer never
fires — `clearTimeout` semantics), and is ignored otherwise. -/
def idleRun (closeThrows : Bool) (s : WidgetState) :
    List IdleEvent → WidgetState
  | [] => s
  | IdleEvent.reset t :: rest => idleRun closeThrows (resetIdleTimer t s) rest
  | IdleEvent.fire t :: rest =>
    match s.idleDeadline with
    | some d =>
      if d = t then
        idleRun closeThrows (idleTimeoutFire closeThrows s).1 rest
      else idleRun closeThrows s rest
    | none => idleRun closeThrows s rest

/-! # Supporting lemmas -/

/-- Lowering the head of a `(· ≤ ·)` chain preserves the chain. -/
lemma chain_le_head_lower {α : Type} [Preorder α] {a b : α} {l : List α}
    (hba : b ≤ a) (h : List.Chain' (· ≤ ·) (a :: l)) :
    List.Chain' (· ≤ ·) (b :: l) := by
  cases l with
  | nil => simp
  | cons c l2 =>
    rw [List.chain'_cons] at h ⊢
    exact ⟨le_trans hba h.1, h.2⟩

/-- The squared RMS of a frame is nonnegative. -/
lemma calculateRMSsq_nonneg (xs : List ℚ) : 0 ≤ calculateRMSsq xs := by
  unfold calculateRMSsq
  apply div_nonneg
  · apply List.sum_nonneg
    intro x hx
    simp only [List.mem_map] at hx
    obtain ⟨y, _, rfl⟩ := hx
    exact mul_self_nonneg y
  · exact Nat.cast_nonneg _

/-- The squared-threshold test of `speechDetected` agrees with the source's
`sqrt(sum / length) > SILENCE_THRESHOLD` comparison. -/
lemma speechDetected_iff_sqrt (xs : List ℚ) :
    speechDetected xs = true ↔
      (1/100 : ℝ) < Real.sqrt ((calculateRMSsq xs : ℝ)) := by
  rw [Real.lt_sqrt (by norm_num : (0:ℝ) ≤ 1/100)]
  simp only [speechDetected, SILENCE_THRESHOLD, gt_iff_lt, decide_eq_true_eq]
  constructor
  · intro h
    have : ((1/100 : ℚ)^2 : ℝ) < ((calculateRMSsq xs : ℚ) : ℝ) := by
      exact_mod_cast h
    push_cast at this ⊢
    linarith
  · intro h
    have : ((1/100 : ℚ)^2 : ℝ) < ((calculateRMSsq xs : ℚ) : ℝ) := by
      push_cast at h ⊢
      linarith
    exact_mod_cast this

/-- Handler `onaudioprocess` sets `lastSpeechTime` to `now` exactly when the
frame's RMS exceeds the silence threshold. -/
lemma onAudioProcess_lastSpeechTime (s : WidgetState) (now : ℤ)
    (f : List ℚ) :
    (onAudioProcess s now f).1.lastSpeechTime =
      if speechDetected f then now else s.lastSpeechTime := by
  by_cases h : speechDetected f <;>
    simp [onAudioProcess, resetIdleTimer, h]

/-- Handler `onaudioprocess` forwards a frame iff the hangover test against the
updated `lastSpeechTime` passes. -/
lemma onAudioProcess_forward (s : WidgetState) (now : ℤ) (f : List ℚ) :
    (onAudioProcess s now f).2 = true ↔
      now - (onAudioProcess s now f).1.lastSpeechTime < SPEECH_HANGOVER_MS := by
  simp [onAudioProcess]

/-- Handler `onaudioprocess` resets the idle timer exactly when the frame's RMS
exceeds the silence threshold. -/
lemma onAudioProcess_idleDeadline (s : WidgetState) (now : ℤ)
    (f : List ℚ) :
    (onAudioProcess s now f).1.idleDeadline =
      if speechDetected f then some (now + IDLE_TIMEOUT_MS)
      else s.idleDeadline := by
  by_cases h : speechDetected f <;>
    simp [onAudioProcess, resetIdleTimer, h]

/-- Every entry of a `vadTrace` run satisfies the forwarding iff. -/
lemma vadTrace_forward_iff (s : WidgetState) (frames : List (ℤ × List ℚ)) :
    ∀ e ∈ vadTrace s frames,
      (e.2.2.2 = true ↔ e.1 - e.2.2.1 < SPEECH_HANGOVER_MS) := by
  induction frames generalizing s with
  | nil => simp [vadTrace]
  | cons hd tl ih =>
    obtain ⟨now, frame⟩ := hd
    intro e he
    simp only [vadTrace, List.mem_cons] at he
    rcases he with rfl | he
    · simpa using onAudioProcess_forward s now frame
    · exact ih _ e he

/-- Along any run with non-decreasing frame times starting after the
initial `lastSpeechTime`, the sequence of `lastSpeechTime` values is
non-decreasing. -/
lemma vadTrace_lastSpeechTime_mono (s : WidgetState)
    (frames : List (ℤ × List ℚ))
    (h : List.Chain' (· ≤ ·) (s.lastSpeechTime :: frames.map Prod.fst)) :
    List.Chain' (· ≤ ·)
      (s.lastSpeechTime :: (vadTrace s frames).map fun e => e.2.2.1) := by
  induction frames generalizing s with
  | nil => simp [vadTrace]
  | cons hd tl ih =>
    obtain ⟨now, frame⟩ := hd
    simp only [List.map_cons] at h
    rw [List.chain'_cons] at h
    obtain ⟨hsn, hchain⟩ := h
    have hlst : (onAudioProcess s now frame).1.lastSpeechTime =
        if speechDetected frame then now else s.lastSpeechTime :=
      onAudioProcess_lastSpeechTime s now frame
    have hle : s.lastSpeechTime ≤ (onAudioProcess s now frame).1.lastSpeechTime := by
      rw [hlst]; split <;> simp [hsn]
    have hle2 : (onAudioProcess s now frame).1.lastSpeechTime ≤ now := by
      rw [hlst]; split <;> simp [hsn]
    have hch2 : List.Chain' (· ≤ ·)
        ((onAudioProcess s now frame).1.lastSpeechTime :: tl.map Prod.fst) :=
      chain_le_head_lower hle2 hchain
    have := ih (onAudioProcess s now frame).1 hch2
    simp only [vadTrace, List.map_cons]
    rw [List.chain'_cons]
    exact ⟨hle, this⟩

/-! # Claim theorems -/

/-- C1. For every captured audio frame processed while a live session is
active, the frame is forwarded to the transport iff
`now - lastSpeechTime < 800` ms at evaluation time, where `lastSpeechTime`
is set to the current time exactly when the frame's RMS energy
`sqrt(mean(sample_i^2))` exceeds `0.01`, and `lastSpeechTime` only
advances forward over the frames of a session (given that the callback
times are non-decreasing). -/
theorem vad_forward_iff_within_hangover (s : WidgetState)
    (frames : List (ℤ × List ℚ))
    (hmono : List.Chain' (· ≤ ·) (s.lastSpeechTime :: frames.map Prod.fst)) :
    (∀ f : List ℚ, speechDetected f = true ↔
        (1/100 : ℝ) < Real.sqrt ((calculateRMSsq f : ℝ))) ∧
    (∀ (s2 : WidgetState) (now : ℤ) (f : List ℚ),
        (onAudioProcess s2 now f).1.lastSpeechTime =
          if speechDetected f then now else s2.lastSpeechTime) ∧
    (∀ (s2 : WidgetState) (now : ℤ) (f : List ℚ),
        (onAudioProcess s2 now f).2 = true ↔
          now - (onAudioProcess s2 now f).1.lastSpeechTime < SPEECH_HANGOVER_MS) ∧
    (∀ e ∈ vadTrace s frames,
        (e.2.2.2 = true ↔ e.1 - e.2.2.1 < SPEECH_HANGOVER_MS)) ∧
    List.Chain' (· ≤ ·)
      (s.lastSpeechTime :: (vadTrace s frames).map fun e => e.2.2.1) :=
  ⟨speechDetected_iff_sqrt, onAudioProcess_lastSpeechTime,
   onAudioProcess_forward, vadTrace_forward_iff s frames,
   vadTrace_lastSpeechTime_mono s frames hmono⟩

/-- Witness for `vad_forward_iff_within_hangover` at a concrete session:
initial `lastSpeechTime = 0`, one loud frame at `t = 100`. -/
theorem vad_forward_iff_within_hangover_witness :
    List.Chain' (· ≤ ·)
      (({} : WidgetState).lastSpeechTime ::
        ([((100:ℤ), [(1:ℚ)])].map Prod.fst)) ∧
    ((∀ f : List ℚ, speechDetected f = true ↔
        (1/100 : ℝ) < Real.sqrt ((calculateRMSsq f : ℝ))) ∧
     (∀ (s2 : WidgetState) (now : ℤ) (f : List ℚ),
        (onAudioProcess s2 now f).1.lastSpeechTime =
          if speechDetected f then now else s2.lastSpeechTime) ∧
     (∀ (s2 : WidgetState) (now : ℤ) (f : List ℚ),
        (onAudioProcess s2 now f).2 = true ↔
          now - (onAudioProcess s2 now f).1.lastSpeechTime < SPEECH_HANGOVER_MS) ∧
     (∀ e ∈ vadTrace {} [((100:ℤ), [(1:ℚ)])],
        (e.2.2.2 = true ↔ e.1 - e.2.2.1 < SPEECH_HANGOVER_MS)) ∧
     List.Chain' (· ≤ ·)
       (({} : WidgetState).lastSpeechTime ::
         (vadTrace {} [((100:ℤ), [(1:ℚ)])]).map fun e => e.2.2.1)) :=
  ⟨by norm_num [List.chain'_cons],
   vad_forward_iff_within_hangover {} [((100:ℤ), [(1:ℚ)])]
     (by norm_num [List.chain'_cons])⟩

/-- Unfolding `chunkStarts` over one all-successful delivery. -/
lemma chunkStarts_cons (nst now d : ℚ) (rest : List (ℚ × ℚ)) :
    chunkStarts nst ((now, d) :: rest) =
      (max nst now, d) :: chunkStarts (max nst now + d) rest := by
  simp [chunkStarts, scheduleTrace, scheduleChunk]

/-- Every start scheduled by an all-successful run is at least the
`nextStartTime` the run began with. -/
lemma chunkStarts_start_ge (nst : ℚ) (chunks : List (ℚ × ℚ))
    (hd : ∀ c ∈ chunks, 0 ≤ c.2) :
    ∀ p ∈ chunkStarts nst chunks, nst ≤ p.1 := by
  induction chunks generalizing nst with
  | nil => simp [chunkStarts, scheduleTrace]
  | cons c rest ih =>
    obtain ⟨now, d⟩ := c
    intro p hp
    rw [chunkStarts_cons] at hp
    rcases List.mem_cons.mp hp with rfl | hp
    · exact le_max_left _ _
    · have h0 : (0:ℚ) ≤ d := hd (now, d) (by simp)
      have h2 := ih (max nst now + d) (fun c hc => hd c (by simp [hc])) p hp
      calc nst ≤ max nst now := le_max_left _ _
        _ ≤ max nst now + d := by linarith
        _ ≤ p.1 := h2

/-- Consecutive starts of an all-successful run leave room for the whole
previous chunk: `start + duration ≤ next start` (and in particular the
starts are non-decreasing). -/
lemma chunkStarts_chain (nst : ℚ) (chunks : List (ℚ × ℚ))
    (hd : ∀ c ∈ chunks, 0 ≤ c.2) :
    List.Chain' (fun a b => a.1 + a.2 ≤ b.1 ∧ a.1 ≤ b.1)
      (chunkStarts nst chunks) := by
  induction chunks generalizing nst with
  | nil => simp [chunkStarts, scheduleTrace]
  | cons c rest ih =>
    obtain ⟨now, d⟩ := c
    have h0 : (0:ℚ) ≤ d := hd (now, d) (by simp)
    have hrest : ∀ c2 ∈ rest, 0 ≤ c2.2 := fun c2 hc => hd c2 (by simp [hc])
    rw [chunkStarts_cons]
    rw [List.chain'_cons']
    refine ⟨?_, ih (max nst now + d) hrest⟩
    intro y hy
    have hmem : y ∈ chunkStarts (max nst now + d) rest :=
      List.mem_of_mem_head? hy
    have := chunkStarts_start_ge (max nst now + d) rest hrest y hmem
    constructor
    · exact this
    · linarith

/-- Every scheduled start is at least the output clock's value at its
enqueue. -/
lemma chunkStarts_ge_now (nst : ℚ) (chunks : List (ℚ × ℚ)) :
    ∀ q ∈ chunks.zip (chunkStarts nst chunks), q.1.1 ≤ q.2.1 := by
  induction chunks generalizing nst with
  | nil => simp
  | cons c rest ih =>
    obtain ⟨now, d⟩ := c
    intro q hq
    rw [chunkStarts_cons, List.zip_cons_cons] at hq
    rcases List.mem_cons.mp hq with rfl | hq
    · exact le_max_right _ _
    · exact ih (max nst now + d) q hq

/-- C2. For every sequence of enqueued chunks, the scheduled start equals
`max(nextStartTime, outputClock.now())` at enqueue and `nextStartTime`
then advances by the chunk's duration; consequently (for nonnegative
durations) scheduled starts are non-decreasing, consecutive starts
satisfy `start + duration ≤ next start` (no overlap), and every start is
at least the output clock's value at its enqueue (no scheduling into the
past). -/
theorem playback_schedule_monotone_no_overlap (nst : ℚ)
    (chunks : List (ℚ × ℚ)) (hd : ∀ c ∈ chunks, 0 ≤ c.2) :
    (∀ a now d : ℚ,
        scheduleChunk a now (some d) = (max a now + d, some (max a now))) ∧
    (∀ q ∈ chunks.zip (chunkStarts nst chunks), q.1.1 ≤ q.2.1) ∧
    List.Chain' (fun a b => a.1 + a.2 ≤ b.1) (chunkStarts nst chunks) ∧
    List.Chain' (· ≤ ·) ((chunkStarts nst chunks).map Prod.fst) := by
  refine ⟨fun a now d => rfl, chunkStarts_ge_now nst chunks, ?_, ?_⟩
  · exact (chunkStarts_chain nst chunks hd).imp fun a b h => h.1
  · exact List.chain'_map_of_chain' Prod.fst (fun a b h => h.2)
      (chunkStarts_chain nst chunks hd)

/-- Witness for `playback_schedule_monotone_no_overlap`: two chunks, the
second arriving while the first still plays. -/
theorem playback_schedule_monotone_no_overlap_witness :
    (∀ c ∈ [((0:ℚ), (1:ℚ)), (1/2, 2)], 0 ≤ c.2) ∧
    ((∀ a now d : ℚ,
        scheduleChunk a now (some d) = (max a now + d, some (max a now))) ∧
     (∀ q ∈ [((0:ℚ), (1:ℚ)), (1/2, 2)].zip
          (chunkStarts 0 [((0:ℚ), (1:ℚ)), (1/2, 2)]), q.1.1 ≤ q.2.1) ∧
     List.Chain' (fun a b => a.1 + a.2 ≤ b.1)
       (chunkStarts 0 [((0:ℚ), (1:ℚ)), (1/2, 2)]) ∧
     List.Chain' (· ≤ ·)
       ((chunkStarts 0 [((0:ℚ), (1:ℚ)), (1/2, 2)]).map Prod.fst)) :=
  ⟨by decide, playback_schedule_monotone_no_overlap 0
    [((0:ℚ), (1:ℚ)), (1/2, 2)] (by decide)⟩

/-- C8. With five chunks enqueued in order and the third failing to
decode, the failing chunk alone is dropped (nothing is scheduled for it,
and in general a decode failure only raises `nextStartTime` to the clock,
scheduling nothing), while chunks 1, 2, 4, 5 are scheduled in order with
no overlap. -/
theorem decode_failure_drops_single_chunk
    (nst n1 n2 n3 n4 n5 d1 d2 d4 d5 : ℚ)
    (h1 : 0 ≤ d1) (h2 : 0 ≤ d2) (h4 : 0 ≤ d4) :
    (∀ a now : ℚ, scheduleChunk a now none = (max a now, none)) ∧
    ∃ s1 s2 s4 s5 : ℚ,
      scheduleTrace nst
          [(n1, some d1), (n2, some d2), (n3, none),
           (n4, some d4), (n5, some d5)] =
        [(n1, some d1, some s1), (n2, some d2, some s2), (n3, none, none),
         (n4, some d4, some s4), (n5, some d5, some s5)] ∧
      s1 + d1 ≤ s2 ∧ s2 + d2 ≤ s4 ∧ s4 + d4 ≤ s5 ∧
      s1 ≤ s2 ∧ s2 ≤ s4 ∧ s4 ≤ s5 := by
  have g1 : max nst n1 + d1 ≤ max (max nst n1 + d1) n2 := le_max_left _ _
  have g2 : max (max nst n1 + d1) n2 + d2 ≤
      max (max (max (max nst n1 + d1) n2 + d2) n3) n4 :=
    calc max (max nst n1 + d1) n2 + d2
        ≤ max (max (max nst n1 + d1) n2 + d2) n3 := le_max_left _ _
      _ ≤ max (max (max (max nst n1 + d1) n2 + d2) n3) n4 := le_max_left _ _
  have g3 : max (max (max (max nst n1 + d1) n2 + d2) n3) n4 + d4 ≤
      max (max (max (max (max nst n1 + d1) n2 + d2) n3) n4 + d4) n5 :=
    le_max_left _ _
  refine ⟨fun a now => rfl, max nst n1, max (max nst n1 + d1) n2,
    max (max (max (max nst n1 + d1) n2 + d2) n3) n4,
    max (max (max (max (max nst n1 + d1) n2 + d2) n3) n4 + d4) n5,
    ?_, g1, g2, g3, by linarith, by linarith, by linarith⟩
  simp [scheduleTrace, scheduleChunk]

/-- Witness for `decode_failure_drops_single_chunk`: concrete times and
durations. -/
theorem decode_failure_drops_single_chunk_witness :
    ((0:ℚ) ≤ 1 ∧ (0:ℚ) ≤ 2 ∧ (0:ℚ) ≤ 3) ∧
    ((∀ a now : ℚ, scheduleChunk a now none = (max a now, none)) ∧
     ∃ s1 s2 s4 s5 : ℚ,
       scheduleTrace 0
           [((0:ℚ), some (1:ℚ)), (1, some 2), (2, none),
            (3, some 3), (4, some 4)] =
         [(0, some 1, some s1), (1, some 2, some s2), (2, none, none),
          (3, some 3, some s4), (4, some 4, some s5)] ∧
       s1 + 1 ≤ s2 ∧ s2 + 2 ≤ s4 ∧ s4 + 3 ≤ s5 ∧
       s1 ≤ s2 ∧ s2 ≤ s4 ∧ s4 ≤ s5) :=
  ⟨by norm_num,
   decode_failure_drops_single_chunk 0 0 1 2 3 4 1 2 3 4
     (by norm_num) (by norm_num) (by norm_num)⟩

/-- The per-node `try { source.stop() } catch(e) { }` loop performs one
stop attempt per in-flight node, whether or not the stop throws. -/
lemma sourceStop_match (thr : Bool) :
    (match sourceStop thr with
     | Except.ok _ => CleanupAction.playbackSourceStop
     | Except.error _ => CleanupAction.playbackSourceStop) =
      CleanupAction.playbackSourceStop := by
  cases thr <;> rfl

/-- The stop loop over the in-flight set performs one stop attempt per
node, whether or not the individual stop throws. -/
lemma sourceStop_map (l : List Bool) :
    (l.map fun thr =>
        match sourceStop thr with
        | Except.ok _ => CleanupAction.playbackSourceStop
        | Except.error _ => CleanupAction.playbackSourceStop) =
      List.replicate l.length CleanupAction.playbackSourceStop := by
  induction l with
  | nil => rfl
  | cons b rest ih =>
    simp only [List.map_cons, sourceStop_match, ih, List.length_cons,
      List.replicate_succ, List.map_const']

/-- Counting through a conditional release segment. -/
lemma count_ite (b : CleanupAction) (c : Prop) [Decidable c]
    (l1 l2 : List CleanupAction) :
    List.count b (if c then l1 else l2) =
      if c then List.count b l1 else List.count b l2 :=
  apply_ite (List.count b) c l1 l2

/-- Closed form of `stopLiveSession`: the state after teardown (every
resource ref cleared, `nextStartTime` zeroed, status disconnected,
user-initiated calls additionally raising the disconnect flag and
clearing the error message) and the log of release attempts — one per
held resource, independent of whether `session.close()` or any
`source.stop()` throws. -/
lemma stopLiveSession_eq (uI thr : Bool) (s0 : WidgetState) :
    stopLiveSession uI thr s0 =
      ({ messages := s0.messages,
         isLiveActive := false,
         connectionStatus := ConnectionStatus.disconnected,
         errorMsg := if uI then none else s0.errorMsg,
         sessionPromise := false,
         inputContext := false,
         outputContext := false,
         nextStartTime := 0,
         sources := [],
         stream := false,
         streamTracks := 0,
         scriptProcessor := false,
         keepAliveInterval := none,
         isUserDisconnecting := if uI then true else s0.isUserDisconnecting,
         lastSpeechTime := s0.lastSpeechTime,
         idleDeadline := none },
       (if s0.keepAliveInterval.isSome then [CleanupAction.clearKeepAlive] else []) ++
       (if s0.idleDeadline.isSome then [CleanupAction.clearIdleTimer] else []) ++
       (if s0.sessionPromise then [CleanupAction.transportClose] else []) ++
       (if s0.stream then List.replicate s0.streamTracks CleanupAction.trackStop else []) ++
       (if s0.scriptProcessor then [CleanupAction.processorDisconnect] else []) ++
       List.replicate s0.sources.length CleanupAction.playbackSourceStop ++
       (if s0.inputContext then [CleanupAction.closeInputContext] else []) ++
       (if s0.outputContext then [CleanupAction.closeOutputContext] else [])) := by
  cases uI <;> cases thr <;>
    simp [stopLiveSession, sessionClose, sourceStop_map]

/-- C4. The teardown path is idempotent and total: every invocation
clears every resource (keepalive interval, idle timer, transport,
capture stream and its tracks, processing node, in-flight playback
handles, `nextStartTime`, both audio contexts) and attempts each release
exactly once per held resource, the result is independent of whether the
fallible platform calls (`session.close()`, `source.stop()`) throw —
those are swallowed — and a second invocation performs no release effect
at all; in particular a user stop followed by a late remote-closed
teardown leaves the state exactly as the first teardown left it. -/
theorem teardown_idempotent_and_total (uI1 uI2 thr1 thr2 : Bool)
    (s : WidgetState) :
    (∀ (uI thr : Bool) (s2 : WidgetState),
        stopLiveSession uI thr s2 = stopLiveSession uI false s2) ∧
    (∀ (uI thr : Bool) (s2 : WidgetState),
        (stopLiveSession uI thr s2).1.isLiveActive = false ∧
        (stopLiveSession uI thr s2).1.connectionStatus = ConnectionStatus.disconnected ∧
        (stopLiveSession uI thr s2).1.keepAliveInterval = none ∧
        (stopLiveSession uI thr s2).1.idleDeadline = none ∧
        (stopLiveSession uI thr s2).1.sessionPromise = false ∧
        (stopLiveSession uI thr s2).1.stream = false ∧
        (stopLiveSession uI thr s2).1.scriptProcessor = false ∧
        (stopLiveSession uI thr s2).1.sources = [] ∧
        (stopLiveSession uI thr s2).1.nextStartTime = 0 ∧
        (stopLiveSession uI thr s2).1.inputContext = false ∧
        (stopLiveSession uI thr s2).1.outputContext = false) ∧
    (∀ (uI thr : Bool) (s2 : WidgetState),
        ((stopLiveSession uI thr s2).2.count CleanupAction.clearKeepAlive =
          if s2.keepAliveInterval.isSome then 1 else 0) ∧
        ((stopLiveSession uI thr s2).2.count CleanupAction.clearIdleTimer =
          if s2.idleDeadline.isSome then 1 else 0) ∧
        ((stopLiveSession uI thr s2).2.count CleanupAction.transportClose =
          if s2.sessionPromise then 1 else 0) ∧
        ((stopLiveSession uI thr s2).2.count CleanupAction.trackStop =
          if s2.stream then s2.streamTracks else 0) ∧
        ((stopLiveSession uI thr s2).2.count CleanupAction.processorDisconnect =
          if s2.scriptProcessor then 1 else 0) ∧
        ((stopLiveSession uI thr s2).2.count CleanupAction.playbackSourceStop =
          s2.sources.length) ∧
        ((stopLiveSession uI thr s2).2.count CleanupAction.closeInputContext =
          if s2.inputContext then 1 else 0) ∧
        ((stopLiveSession uI thr s2).2.count CleanupAction.closeOutputContext =
          if s2.outputContext then 1 else 0)) ∧
    (stopLiveSession uI2 thr2 (stopLiveSession uI1 thr1 s).1).2 = [] ∧
    (stopLiveSession false thr2 (stopLiveSession true thr1 s).1).1 =
      (stopLiveSession true thr1 s).1 := by
  refine ⟨?_, ?_, ?_, ?_, ?_⟩
  · intro uI thr s2
    rw [stopLiveSession_eq, stopLiveSession_eq]
  · intro uI thr s2
    rw [stopLiveSession_eq]
    refine ⟨rfl, rfl, rfl, rfl, rfl, rfl, rfl, rfl, rfl, rfl, rfl⟩
  · intro uI thr s2
    rw [stopLiveSession_eq]
    refine ⟨?_, ?_, ?_, ?_, ?_, ?_, ?_, ?_⟩ <;>
      simp [List.count_append, count_ite, List.count_replicate,
        List.count_cons]
  · simp only [stopLiveSession_eq]
    simp
  · simp only [stopLiveSession_eq]
    simp

/-- Function `startLiveSession` returns immediately when a session is active. -/
lemma startLiveSession_noop (k m : Bool) (now : ℤ) (tracks : ℕ)
    (s : WidgetState) (h : s.isLiveActive = true) :
    startLiveSession k m now tracks s = s := by
  simp [startLiveSession, h]

/-- C6. Calling `start()` while a session is already active (connecting
or connected, i.e. `isLiveActive`) returns immediately: the state is
unchanged and no resource is acquired; a successful fresh start raises
`isLiveActive` with status `connecting`, so a repeated `start()` right
after a successful one is a no-op — at most one session's resources ever
exist per widget instance. -/
theorem start_noop_when_active (s : WidgetState)
    (h : s.isLiveActive = true) :
    (∀ (k m : Bool) (now : ℤ) (tracks : ℕ),
        startLiveSession k m now tracks s = s) ∧
    (∀ (s2 : WidgetState) (now : ℤ) (tracks : ℕ),
        s2.isLiveActive = false →
        (startLiveSession true true now tracks s2).isLiveActive = true ∧
        (startLiveSession true true now tracks s2).connectionStatus =
          ConnectionStatus.connecting) ∧
    (∀ (s2 : WidgetState) (k2 m2 : Bool) (now now2 : ℤ) (tracks tracks2 : ℕ),
        s2.isLiveActive = false →
        startLiveSession k2 m2 now2 tracks2
            (startLiveSession true true now tracks s2) =
          startLiveSession true true now tracks s2) := by
  refine ⟨?_, ?_, ?_⟩
  · intro k m now tracks
    exact startLiveSession_noop k m now tracks s h
  · intro s2 now tracks h2
    constructor <;> simp [startLiveSession, h2]
  · intro s2 k2 m2 now now2 tracks tracks2 h2
    have hact : (startLiveSession true true now tracks s2).isLiveActive = true := by
      simp [startLiveSession, h2]
    exact startLiveSession_noop k2 m2 now2 tracks2 _ hact

/-- Witness for `start_noop_when_active` at a state with an active
session. -/
theorem start_noop_when_active_witness :
    ({ isLiveActive := true } : WidgetState).isLiveActive = true ∧
    ((∀ (k m : Bool) (now : ℤ) (tracks : ℕ),
        startLiveSession k m now tracks { isLiveActive := true } =
          { isLiveActive := true }) ∧
     (∀ (s2 : WidgetState) (now : ℤ) (tracks : ℕ),
        s2.isLiveActive = false →
        (startLiveSession true true now tracks s2).isLiveActive = true ∧
        (startLiveSession true true now tracks s2).connectionStatus =
          ConnectionStatus.connecting) ∧
     (∀ (s2 : WidgetState) (k2 m2 : Bool) (now now2 : ℤ) (tracks tracks2 : ℕ),
        s2.isLiveActive = false →
        startLiveSession k2 m2 now2 tracks2
            (startLiveSession true true now tracks s2) =
          startLiveSession true true now tracks s2)) :=
  ⟨rfl, start_noop_when_active { isLiveActive := true } rfl⟩

/-- C7. The `closed` transport event always tears the session down to
`Disconnected` (timers cancelled, transport released), and the
"Session timed out. Please resume." message is surfaced exactly when the
closure was not user-initiated; a user-initiated `stop` raises the
disconnect flag and clears the message, so a late `closed` event after it
surfaces nothing. -/
theorem onclose_surfaces_unless_user_initiated (thr : Bool)
    (s : WidgetState) :
    (onClose thr s).1.connectionStatus = ConnectionStatus.disconnected ∧
    (onClose thr s).1.isLiveActive = false ∧
    (onClose thr s).1.keepAliveInterval = none ∧
    (onClose thr s).1.idleDeadline = none ∧
    (onClose thr s).1.sessionPromise = false ∧
    (onClose thr s).1.errorMsg =
      (if s.isUserDisconnecting then s.errorMsg
       else some "Session timed out. Please resume.") ∧
    (∀ (thr1 thr2 : Bool) (s2 : WidgetState),
        (onClose thr2 (stopLiveSession true thr1 s2).1).1.errorMsg = none) := by
  refine ⟨?_, ?_, ?_, ?_, ?_, ?_, ?_⟩
  · by_cases h : s.isUserDisconnecting <;> simp [onClose, stopLiveSession_eq, h]
  · by_cases h : s.isUserDisconnecting <;> simp [onClose, stopLiveSession_eq, h]
  · by_cases h : s.isUserDisconnecting <;> simp [onClose, stopLiveSession_eq, h]
  · by_cases h : s.isUserDisconnecting <;> simp [onClose, stopLiveSession_eq, h]
  · by_cases h : s.isUserDisconnecting <;> simp [onClose, stopLiveSession_eq, h]
  · by_cases h : s.isUserDisconnecting <;> simp [onClose, stopLiveSession_eq, h]
  · intro thr1 thr2 s2
    simp [onClose, stopLiveSession_eq]

/-- C9. While a session runs, the keep-alive is registered at a fixed
4000 ms interval (and cancelled on teardown); each tick routes a 440 Hz
oscillator through a gain node whose gain is exactly zero, so the signal
it contributes at the destination is identically zero — no user-audible
output. -/
theorem keepalive_zero_gain_inaudible :
    KEEPALIVE_INTERVAL_MS = 4000 ∧
    (∀ (m : Bool) (now : ℤ) (tracks : ℕ),
        (startLiveSession true m now tracks {}).keepAliveInterval =
          some KEEPALIVE_INTERVAL_MS) ∧
    keepAliveTick true =
      some { frequency := 440, gainValue := 0, stopOffset := 1/100 } ∧
    (∀ tone ∈ keepAliveTick true, tone.gainValue = 0 ∧
        ∀ sample : ℚ, gainNodeOutput tone.gainValue sample = 0) ∧
    (∀ (uI thr : Bool) (s2 : WidgetState),
        (stopLiveSession uI thr s2).1.keepAliveInterval = none) := by
  refine ⟨rfl, ?_, rfl, ?_, ?_⟩
  · intro m now tracks
    cases m <;> simp [startLiveSession]
  · intro tone htone
    simp [keepAliveTick] at htone
    subst htone
    exact ⟨rfl, fun sample => by simp [gainNodeOutput]⟩
  · intro uI thr s2
    simp [stopLiveSession_eq]

/-- C3. The idle watchdog: a reset cancels the pending deadline and sets
it to exactly `IDLE_TIMEOUT_MS = 90000` ms after the reset instant; a
pending timer left unreset fires at its deadline (90000 ms after the
last reset) and the fire transitions the session to `Disconnected`
surfacing the inactivity message (unless the user is already
disconnecting); an intervening reset cancels the earlier deadline, so the
old instant no longer fires; and, while the handlers run, the only
resets are outbound speech detection (frame RMS above the threshold) and
inbound synthesized audio. -/
theorem idle_timeout_disconnects_after_90s (thr : Bool) (s : WidgetState)
    (r1 r2 t : ℤ) (hne : t ≠ r2 + IDLE_TIMEOUT_MS) :
    IDLE_TIMEOUT_MS = 90000 ∧
    (∀ (s2 : WidgetState) (now : ℤ),
        (resetIdleTimer now s2).idleDeadline = some (now + IDLE_TIMEOUT_MS)) ∧
    (∀ (s2 : WidgetState),
        (idleTimeoutFire thr s2).1.connectionStatus =
            ConnectionStatus.disconnected ∧
        (idleTimeoutFire thr s2).1.isLiveActive = false ∧
        (idleTimeoutFire thr s2).1.errorMsg =
          (if s2.isUserDisconnecting then s2.errorMsg
           else some "Session ended due to inactivity.")) ∧
    (∀ (s2 : WidgetState) (r : ℤ),
        idleRun thr s2
            [IdleEvent.reset r, IdleEvent.fire (r + IDLE_TIMEOUT_MS)] =
          (idleTimeoutFire thr (resetIdleTimer r s2)).1) ∧
    (idleRun thr s [IdleEvent.reset r1, IdleEvent.reset r2, IdleEvent.fire t] =
        resetIdleTimer r2 (resetIdleTimer r1 s)) ∧
    (∀ (s2 : WidgetState) (now : ℤ) (f : List ℚ),
        (onAudioProcess s2 now f).1.idleDeadline =
          if speechDetected f then some (now + IDLE_TIMEOUT_MS)
          else s2.idleDeadline) ∧
    (∀ (s2 : WidgetState) (nowMs : ℤ) (ctxNow : ℚ) (msg : ServerMessage),
        (onMessage s2 nowMs ctxNow msg).idleDeadline =
          if msg.audio.isSome ∧ s2.outputContext then
            some (nowMs + IDLE_TIMEOUT_MS)
          else s2.idleDeadline) := by
  refine ⟨rfl, fun s2 now => rfl, ?_, ?_, ?_, onAudioProcess_idleDeadline, ?_⟩
  · intro s2
    by_cases h : s2.isUserDisconnecting <;>
      simp [idleTimeoutFire, stopLiveSession_eq, h]
  · intro s2 r
    simp [idleRun, resetIdleTimer]
  · have hne2 : ¬ (r2 + IDLE_TIMEOUT_MS = t) := fun h => hne h.symm
    simp [idleRun, resetIdleTimer, hne2]
  · intro s2 nowMs ctxNow msg
    obtain ⟨a, g⟩ := msg
    rcases a with _ | d
    · simp [onMessage]
    · by_cases hoc : s2.outputContext
      · rcases d with _ | dur <;>
          simp [onMessage, scheduleChunk, resetIdleTimer, hoc]
      · simp [onMessage, hoc]

/-- Witness for `idle_timeout_disconnects_after_90s`: a fire at the old
deadline after an intervening reset. -/
theorem idle_timeout_disconnects_after_90s_witness :
    ((90000:ℤ) ≠ 1 + IDLE_TIMEOUT_MS) ∧
    (IDLE_TIMEOUT_MS = 90000 ∧
     (∀ (s2 : WidgetState) (now : ℤ),
        (resetIdleTimer now s2).idleDeadline = some (now + IDLE_TIMEOUT_MS)) ∧
     (∀ (s2 : WidgetState),
        (idleTimeoutFire false s2).1.connectionStatus =
            ConnectionStatus.disconnected ∧
        (idleTimeoutFire false s2).1.isLiveActive = false ∧
        (idleTimeoutFire false s2).1.errorMsg =
          (if s2.isUserDisconnecting then s2.errorMsg
           else some "Session ended due to inactivity.")) ∧
     (∀ (s2 : WidgetState) (r : ℤ),
        idleRun false s2
            [IdleEvent.reset r, IdleEvent.fire (r + IDLE_TIMEOUT_MS)] =
          (idleTimeoutFire false (resetIdleTimer r s2)).1) ∧
     (idleRun false {} [IdleEvent.reset 0, IdleEvent.reset 1,
          IdleEvent.fire 90000] =
        resetIdleTimer 1 (resetIdleTimer 0 {})) ∧
     (∀ (s2 : WidgetState) (now : ℤ) (f : List ℚ),
        (onAudioProcess s2 now f).1.idleDeadline =
          if speechDetected f then some (now + IDLE_TIMEOUT_MS)
          else s2.idleDeadline) ∧
     (∀ (s2 : WidgetState) (nowMs : ℤ) (ctxNow : ℚ) (msg : ServerMessage),
        (onMessage s2 nowMs ctxNow msg).idleDeadline =
          if msg.audio.isSome ∧ s2.outputContext then
            some (nowMs + IDLE_TIMEOUT_MS)
          else s2.idleDeadline)) :=
  ⟨by decide, idle_timeout_disconnects_after_90s false {} 0 1 90000 (by decide)⟩

/-- The grounding branch never invents an entry on an empty transcript. -/
lemma applyGrounding_nil (chunks : List GroundingChunk) :
    applyGrounding chunks [] = [] := by
  unfold applyGrounding
  split
  · rfl
  · split
    · rename_i lastMsg heq
      simp at heq
    · simp

/-- The grounding branch on a transcript with a last entry: the last
entry is replaced by a cited copy exactly when citations were extracted
and its role is `model`; otherwise it is kept as is. -/
lemma applyGrounding_concat (chunks : List GroundingChunk)
    (init : List ChatMessage) (lastMsg : ChatMessage) :
    applyGrounding chunks (init ++ [lastMsg]) =
      init ++ [if extractSources chunks ≠ [] ∧ lastMsg.role = Role.model
               then { lastMsg with sources := some (extractSources chunks) }
               else lastMsg] := by
  by_cases hc : chunks.isEmpty
  · have hc2 : chunks = [] := by
      rcases chunks with _ | ⟨c, cs⟩
      · rfl
      · simp at hc
    subst hc2
    simp [applyGrounding, extractSources]
  · by_cases hs : (extractSources chunks).isEmpty
    · have hs2 : extractSources chunks = [] := by
        rcases he : extractSources chunks with _ | ⟨p, ps⟩
        · rfl
        · rw [he] at hs; simp at hs
      simp [applyGrounding, hc, hs, hs2]
    · have hs2 : extractSources chunks ≠ [] := by
        intro h; rw [h] at hs; simp at hs
      by_cases hr : lastMsg.role = Role.model <;>
        simp [applyGrounding, hc, hs, hs2, hr, List.getLast?_concat,
          List.dropLast_concat]

/-- C10. A grounding-citations delivery attaches the extracted `(title,
uri)` list as the `sources` of the most recent transcript entry exactly
when that entry exists and has role `model`; in every other case
(empty transcript, last entry not from the model, or no citations
extracted) the transcript is left unchanged, and no delivery ever
changes the number of transcript entries. -/
theorem grounding_attaches_to_last_model_entry
    (chunks : List GroundingChunk) (prev : List ChatMessage) :
    ((applyGrounding chunks prev).length = prev.length) ∧
    (applyGrounding chunks [] = []) ∧
    (extractSources chunks = [] → applyGrounding chunks prev = prev) ∧
    (∀ (init : List ChatMessage) (lastMsg : ChatMessage),
        lastMsg.role = Role.model → extractSources chunks ≠ [] →
        applyGrounding chunks (init ++ [lastMsg]) =
          init ++ [{ lastMsg with sources := some (extractSources chunks) }]) ∧
    (∀ (init : List ChatMessage) (lastMsg : ChatMessage),
        lastMsg.role ≠ Role.model →
        applyGrounding chunks (init ++ [lastMsg]) = init ++ [lastMsg]) ∧
    (∀ (s2 : WidgetState) (nowMs : ℤ) (ctxNow : ℚ),
        (onMessage s2 nowMs ctxNow
            { audio := none, groundingChunks := chunks }).messages =
          applyGrounding chunks s2.messages) := by
  refine ⟨?_, applyGrounding_nil chunks, ?_, ?_, ?_, ?_⟩
  · rcases List.eq_nil_or_concat prev with rfl | ⟨init, lastMsg, rfl⟩
    · rw [applyGrounding_nil]
    · simp only [List.concat_eq_append]
      rw [applyGrounding_concat]
      simp
  · intro he
    rcases List.eq_nil_or_concat prev with rfl | ⟨init, lastMsg, rfl⟩
    · rw [applyGrounding_nil]
    · simp only [List.concat_eq_append]
      rw [applyGrounding_concat]
      simp [he]
  · intro init lastMsg hr he
    rw [applyGrounding_concat]
    simp [he, hr]
  · intro init lastMsg hr
    rw [applyGrounding_concat]
    simp [hr]
  · intro s2 nowMs ctxNow
    simp [onMessage]

/-- Witness for `grounding_attaches_to_last_model_entry`: one web chunk,
transcript ending in a model entry. -/
theorem grounding_attaches_to_last_model_entry_witness :
    (extractSources [{ webUri := some "u", webTitle := some "T" }] ≠ [] ∧
     ({ id := "1", role := Role.model, text := "hello",
        timestamp := 0 } : ChatMessage).role = Role.model) ∧
    applyGrounding [{ webUri := some "u", webTitle := some "T" }]
        ([] ++ [({ id := "1", role := Role.model, text := "hello",
                   timestamp := 0 } : ChatMessage)]) =
      [] ++ [{ ({ id := "1", role := Role.model, text := "hello",
                  timestamp := 0 } : ChatMessage) with
               sources := some (extractSources
                 [{ webUri := some "u", webTitle := some "T" }]) }] :=
  ⟨⟨by decide, rfl⟩,
   (grounding_attaches_to_last_model_entry
      [{ webUri := some "u", webTitle := some "T" }]
      []).2.2.2.1 []
      { id := "1", role := Role.model, text := "hello", timestamp := 0 }
      rfl (by decide)⟩

/-- Appending on the right never changes a non-empty list's head. -/
lemma head?_append_of_head? {α : Type} {l : List α} {a : α} (x : α)
    (h : l.head? = some a) : (l ++ [x]).head? = some a := by
  cases l with
  | nil => simp at h
  | cons b rest => simpa using h

/-- Invariant of the open/attach protocol after `opened` fired at `t0`:
`lb` is a lower bound on all future event times; any pending mic-attach
deadline, the attach itself, and every forwarded frame lie at or after
`t0 + MIC_ATTACH_DELAY_MS`; and the greeting instruction heads the
outbox. -/
def OpenInv (t0 lb : ℤ) (s : OpenRunState) : Prop :=
  t0 ≤ lb ∧
  (∀ d, s.micAttachDue = some d → t0 + MIC_ATTACH_DELAY_MS ≤ d) ∧
  (s.micAttached = true → t0 + MIC_ATTACH_DELAY_MS ≤ lb) ∧
  s.outbox.head? = some (t0, TransportMsg.instruction greetingInstruction) ∧
  (∀ p ∈ s.outbox, p.2 = TransportMsg.audioFrame →
      t0 + MIC_ATTACH_DELAY_MS ≤ p.1)

/-- One protocol step preserves the invariant, moving the time bound to
the step's own time. -/
lemma openInv_step (t0 lb : ℤ) (s : OpenRunState) (e : OpenEvent)
    (hinv : OpenInv t0 lb s) (hle : lb ≤ e.time) :
    OpenInv t0 e.time (openStep s e) := by
  obtain ⟨ob, due, att, lst⟩ := s
  obtain ⟨h1, h2, h3, h4, h5⟩ := hinv
  cases e with
  | opened t =>
    simp only [OpenEvent.time] at hle
    have h1t : t0 ≤ t := le_trans h1 hle
    refine ⟨h1t, ?_, fun hatt => le_trans (h3 hatt) hle,
      head?_append_of_head? _ h4, ?_⟩
    · intro d hd
      have hd2 : t + MIC_ATTACH_DELAY_MS = d := Option.some.inj hd
      omega
    · intro p hp hframe
      rcases List.mem_append.mp hp with hp | hp
      · exact h5 p hp hframe
      · rw [List.mem_singleton] at hp
        subst hp
        exact absurd hframe (by simp)
  | micTimerFire t =>
    simp only [OpenEvent.time] at hle
    have h1t : t0 ≤ t := le_trans h1 hle
    rcases due with _ | d
    · exact ⟨h1t, h2, fun hatt => le_trans (h3 hatt) hle, h4, h5⟩
    · by_cases hfire : d ≤ t
      · have heq : openStep ⟨ob, some d, att, lst⟩ (OpenEvent.micTimerFire t) =
            ⟨ob, none, true, lst⟩ := by
          simp [openStep, hfire]
        rw [heq]
        exact ⟨h1t, fun d2 h => Option.noConfusion h,
          fun _ => le_trans (h2 d rfl) hfire, h4, h5⟩
      · have heq : openStep ⟨ob, some d, att, lst⟩ (OpenEvent.micTimerFire t) =
            ⟨ob, some d, att, lst⟩ := by
          simp [openStep, hfire]
        rw [heq]
        exact ⟨h1t, h2, fun hatt => le_trans (h3 hatt) hle, h4, h5⟩
  | frame t inputData =>
    simp only [OpenEvent.time] at hle
    have h1t : t0 ≤ t := le_trans h1 hle
    by_cases hatt : att = true
    · subst hatt
      have hbound : t0 + MIC_ATTACH_DELAY_MS ≤ t := le_trans (h3 rfl) hle
      by_cases hspeech : speechDetected inputData = true
      · have heq : openStep ⟨ob, due, true, lst⟩ (OpenEvent.frame t inputData) =
            ⟨ob ++ [(t, TransportMsg.audioFrame)], due, true, t⟩ := by
          simp [openStep, hspeech, SPEECH_HANGOVER_MS]
        rw [heq]
        refine ⟨h1t, h2, fun _ => hbound, head?_append_of_head? _ h4, ?_⟩
        intro p hp hframe
        rcases List.mem_append.mp hp with hp | hp
        · exact h5 p hp hframe
        · rw [List.mem_singleton] at hp
          subst hp
          exact hbound
      · by_cases hfwd : t - lst < SPEECH_HANGOVER_MS
        · have heq : openStep ⟨ob, due, true, lst⟩ (OpenEvent.frame t inputData) =
              ⟨ob ++ [(t, TransportMsg.audioFrame)], due, true, lst⟩ := by
            simp [openStep, hspeech, hfwd]
          rw [heq]
          refine ⟨h1t, h2, fun _ => hbound, head?_append_of_head? _ h4, ?_⟩
          intro p hp hframe
          rcases List.mem_append.mp hp with hp | hp
          · exact h5 p hp hframe
          · rw [List.mem_singleton] at hp
            subst hp
            exact hbound
        · have heq : openStep ⟨ob, due, true, lst⟩ (OpenEvent.frame t inputData) =
              ⟨ob, due, true, lst⟩ := by
            simp [openStep, hspeech, hfwd]
          rw [heq]
          exact ⟨h1t, h2, fun _ => hbound, h4, h5⟩
    · have hatt2 : att = false := by
        rcases att with _ | _
        · rfl
        · exact absurd rfl hatt
      subst hatt2
      have heq : openStep ⟨ob, due, false, lst⟩ (OpenEvent.frame t inputData) =
          ⟨ob, due, false, lst⟩ := by
        simp [openStep]
      rw [heq]
      exact ⟨h1t, h2, fun h => absurd h (by simp), h4, h5⟩

/-- The invariant is preserved along any run whose event times are
non-decreasing from the bound. -/
lemma openInv_run (t0 : ℤ) (evs : List OpenEvent) (s : OpenRunState)
    (lb : ℤ) (hinv : OpenInv t0 lb s)
    (hmono : List.Chain' (· ≤ ·) (lb :: evs.map OpenEvent.time)) :
    ∃ lb2, OpenInv t0 lb2 (openRun s evs) := by
  induction evs generalizing s lb with
  | nil => exact ⟨lb, hinv⟩
  | cons e rest ih =>
    simp only [List.map_cons] at hmono
    rw [List.chain'_cons] at hmono
    exact ih (openStep s e) e.time
      (openInv_step t0 lb s e hinv hmono.1) hmono.2

/-- C5. After `start()` from fresh `Disconnected`, when the transport
fires `opened` at `t0` the greeting instruction (compelling the remote
party to speak the fixed exact greeting) is pushed first — it heads the
transport outbox, before any microphone frame — and no microphone frame
is forwarded earlier than `MIC_ATTACH_DELAY_MS = 800` ms after `opened`
(given that events are delivered in time order). -/
theorem greeting_precedes_mic_forwarding (t0 : ℤ) (evs : List OpenEvent)
    (hmono : List.Chain' (· ≤ ·) (t0 :: evs.map OpenEvent.time)) :
    (openRun {} (OpenEvent.opened t0 :: evs)).outbox.head? =
        some (t0, TransportMsg.instruction greetingInstruction) ∧
    (∀ p ∈ (openRun {} (OpenEvent.opened t0 :: evs)).outbox,
        p.2 = TransportMsg.audioFrame → t0 + MIC_ATTACH_DELAY_MS ≤ p.1) ∧
    MIC_ATTACH_DELAY_MS = 800 ∧
    greetingInstruction =
      "Speak with a strong British accent. Say exactly: \x27" ++
        fixedGreeting ++ "\x27" := by
  have hinv0 : OpenInv t0 t0 (openStep {} (OpenEvent.opened t0)) := by
    refine ⟨le_refl t0, ?_, ?_, ?_, ?_⟩
    · intro d hd
      simp only [openStep, Option.some.injEq] at hd
      omega
    · intro hatt
      simp only [openStep] at hatt
      simp at hatt
    · simp [openStep]
    · intro p hp hframe
      simp only [openStep] at hp
      simp only [List.nil_append, List.mem_singleton] at hp
      subst hp
      simp at hframe
  obtain ⟨lb2, hinv⟩ := openInv_run t0 evs _ t0 hinv0 hmono
  have hrun : openRun {} (OpenEvent.opened t0 :: evs) =
      openRun (openStep {} (OpenEvent.opened t0)) evs := rfl
  rw [hrun]
  exact ⟨hinv.2.2.2.1, hinv.2.2.2.2, rfl, rfl⟩

/-- Witness for `greeting_precedes_mic_forwarding`: open at `t = 0`, the
mic timer fires at 800, one loud frame at 900. -/
theorem greeting_precedes_mic_forwarding_witness :
    List.Chain' (· ≤ ·)
      ((0:ℤ) :: ([OpenEvent.micTimerFire 800,
          OpenEvent.frame 900 [1]].map OpenEvent.time)) ∧
    ((openRun {} (OpenEvent.opened 0 :: [OpenEvent.micTimerFire 800,
          OpenEvent.frame 900 [1]])).outbox.head? =
        some (0, TransportMsg.instruction greetingInstruction) ∧
     (∀ p ∈ (openRun {} (OpenEvent.opened 0 :: [OpenEvent.micTimerFire 800,
          OpenEvent.frame 900 [1]])).outbox,
        p.2 = TransportMsg.audioFrame → 0 + MIC_ATTACH_DELAY_MS ≤ p.1) ∧
     MIC_ATTACH_DELAY_MS = 800 ∧
     greetingInstruction =
       "Speak with a strong British accent. Say exactly: \x27" ++
         fixedGreeting ++ "\x27") :=
  ⟨by norm_num [List.chain'_cons, OpenEvent.time],
   greeting_precedes_mic_forwarding 0
     [OpenEvent.micTimerFire 800, OpenEvent.frame 900 [1]]
     (by norm_num [List.chain'_cons, OpenEvent.time])⟩

end QRChat
